import Mathlib

/-!
# Verification of the price-vol revenue-movement classification engine

Shallow embedding of `app.py`: the vectorized rule classifier
`_apply_tagging_conditions`, the level reconciler `_tag_final_cust_prod_status`,
the prior-period resolver (`shift(1).where(...)` inside `_tag_customer_status`),
and the left-merge join-back stages.

Values are modelled as rationals; a nullable pandas column entry is an
`Option ℚ`.  Pandas comparison semantics against a null (`NaN`) operand are
embedded explicitly: every ordering/equality comparison with a null operand is
`false`, while `isna` is `true` exactly on the null.
-/

namespace PriceVol

/-- Pandas `prior >= 0` where `prior` may be null: null compares false. -/
def pdGeZero (p : Option ℚ) : Bool :=
  match p with
  | some x => decide (0 ≤ x)
  | none => false

/-- Pandas `value == prior` where `prior` may be null: null compares false. -/
def pdEqVal (v : ℚ) (p : Option ℚ) : Bool :=
  match p with
  | some x => decide (v = x)
  | none => false

/-- Pandas `value > prior` where `prior` may be null: null compares false. -/
def pdGtPrior (v : ℚ) (p : Option ℚ) : Bool :=
  match p with
  | some x => decide (x < v)
  | none => false

/-- Pandas `value < prior` where `prior` may be null: null compares false. -/
def pdLtPrior (v : ℚ) (p : Option ℚ) : Bool :=
  match p with
  | some x => decide (v < x)
  | none => false

/-- Pandas `prior > 0` where `prior` may be null: null compares false. -/
def pdPosPrior (p : Option ℚ) : Bool :=
  match p with
  | some x => decide (0 < x)
  | none => false

/-- Pandas `prior < 0` where `prior` may be null: null compares false. -/
def pdNegPrior (p : Option ℚ) : Bool :=
  match p with
  | some x => decide (x < 0)
  | none => false

/-- Pandas `prior.isna()`. -/
def pdIsna (p : Option ℚ) : Bool := p.isNone

/-- Pandas `Series.str.lower()` on a string entry (ASCII lowering, which
covers the label vocabulary of the program). -/
def strLower (s : String) : String := ⟨s.data.map Char.toLower⟩

/-- Per-row semantics of `np.select(conditions, choices, default)`: the choice of the first
condition that evaluates true, else the default.  The conditions are carried
together with their choices as a list of pairs, all evaluated simultaneously
from the input data (no condition observes a previously assigned label). -/
def npSelect (conds : List (Bool × String)) (dflt : String) : String :=
  match conds.find? (fun c => c.1) with
  | some c => c.2
  | none => dflt

/-- Index of the branch `np.select` picks: position of the first true
condition, `none` when no condition is true (default branch). -/
def selectedIdx : List (Bool × String) → Option ℕ
  | [] => none
  | c :: cs => if c.1 then some 0 else (selectedIdx cs).map (· + 1)

/-- The condition/choice table built by `_apply_tagging_conditions`
(`app.py` lines 125–144), in source order.  The credit-note product
condition is prepended only when the dataset has a `product` column. -/
def tagConditions (hasProduct : Bool) (product : String) (v : ℚ)
    (p : Option ℚ) : List (Bool × String) :=
  (if hasProduct then [((strLower product == "credit notes"), "Credit Notes")] else []) ++
  [ ((decide (0 ≤ v) && pdGeZero p && pdEqVal v p), "Recurring"),
    ((pdGtPrior v p), "Upsell"),
    ((pdLtPrior v p), "Downsell"),
    ((decide (v = 0) && pdPosPrior p), "Lost"),
    ((decide (0 < v) && pdIsna p), "New"),
    ((decide (v < 0) || pdNegPrior p), "Credit Notes") ]

/-- Per-row form of `_apply_tagging_conditions`: `np.select(conditions,
choices, default='N/A')` (`app.py` line 147). -/
def applyTaggingConditions (hasProduct : Bool) (product : String) (v : ℚ)
    (p : Option ℚ) : String :=
  npSelect (tagConditions hasProduct product v p) "N/A"

/-- The whole status column produced by `_apply_tagging_conditions`: one
label per input row `(product, value, prior_yr_value)`. -/
def applyTaggingColumn (hasProduct : Bool)
    (rows : List (String × ℚ × Option ℚ)) : List String :=
  rows.map fun r => applyTaggingConditions hasProduct r.1 r.2.1 r.2.2

/-- The claim's reading of the classifier: an ordered rule table evaluated
first-match-wins, written as a sequential decision chain over the same
predicates (rules 1–7 plus the `N/A` default), with comparisons against a
null prior false per the spec's explicit null-handling contract. -/
def claimRuleTable (hasProduct : Bool) (product : String) (v : ℚ)
    (p : Option ℚ) : String :=
  if hasProduct && (strLower product == "credit notes") then "Credit Notes"
  else if decide (0 ≤ v) && pdGeZero p && pdEqVal v p then "Recurring"
  else if pdGtPrior v p then "Upsell"
  else if pdLtPrior v p then "Downsell"
  else if decide (v = 0) && pdPosPrior p then "Lost"
  else if decide (0 < v) && pdIsna p then "New"
  else if decide (v < 0) || pdNegPrior p then "Credit Notes"
  else "N/A"

theorem npSelect_cons (b : Bool) (s : String) (cs : List (Bool × String))
    (d : String) :
    npSelect ((b, s) :: cs) d = if b then s else npSelect cs d := by
  cases b <;> simp [npSelect, List.find?]

theorem npSelect_nil (d : String) : npSelect [] d = d := rfl

/-- C1: the classifier (`np.select` over the simultaneously evaluated
condition table of `_apply_tagging_conditions`, with the credit-note product
rule present exactly when a product column exists) assigns to every row the
label of the first predicate, in table order, that evaluates true for the
row, and the default `N/A` when none does: it coincides with the sequential
first-match reading of the rule table, no predicate observing labels
assigned by earlier rules. -/
theorem classifier_is_first_match_rule_table (hasProduct : Bool)
    (product : String) (v : ℚ) (p : Option ℚ) :
    applyTaggingConditions hasProduct product v p =
      claimRuleTable hasProduct product v p := by
  cases hasProduct <;>
    simp [applyTaggingConditions, tagConditions, claimRuleTable,
      npSelect_cons, npSelect_nil]

/-- C2 counterexample: a product-level row whose `product` dimension is
literally `Credit Notes`, with null prior and positive value, is labelled
`Credit Notes` by the first rule, not `New` — so the claim's universal
statement over every null-prior row fails as written. -/
theorem null_prior_counterexample :
    applyTaggingConditions true "Credit Notes" 5 none ≠ "New" ∧
    applyTaggingConditions true "Credit Notes" 5 none = "Credit Notes" := by
  constructor <;> decide

/-- C2 (amended): for every row with null prior that the credit-note product
rule does not capture, the ordering predicates of rules 3 and 4 evaluate
false, and the label is `New` when the value is positive, `N/A` when it is
zero (never `Lost`), and `Credit Notes` (via rule 7, not shadowed by rule 4)
when it is negative. -/
theorem null_prior_ordering_false (hasProduct : Bool) (product : String)
    (v : ℚ)
    (hcn : (hasProduct && (strLower product == "credit notes")) = false) :
    pdGtPrior v none = false ∧ pdLtPrior v none = false ∧
    (0 < v → applyTaggingConditions hasProduct product v none = "New") ∧
    (v = 0 → applyTaggingConditions hasProduct product v none = "N/A") ∧
    (v < 0 → applyTaggingConditions hasProduct product v none = "Credit Notes") := by
  refine ⟨rfl, rfl, fun hv => ?_, fun hv => ?_, fun hv => ?_⟩ <;>
    cases hasProduct <;> simp only [Bool.true_and, Bool.false_and] at hcn
  · simp [applyTaggingConditions, tagConditions, npSelect_cons, npSelect_nil,
      pdGeZero, pdEqVal, pdGtPrior, pdLtPrior, pdPosPrior, pdNegPrior, pdIsna,
      hv, asymm hv]
  · simp [applyTaggingConditions, tagConditions, npSelect_cons, npSelect_nil,
      pdGeZero, pdEqVal, pdGtPrior, pdLtPrior, pdPosPrior, pdNegPrior, pdIsna,
      hcn, hv, asymm hv]
  · simp [applyTaggingConditions, tagConditions, npSelect_cons, npSelect_nil,
      pdGeZero, pdEqVal, pdGtPrior, pdLtPrior, pdPosPrior, pdNegPrior, pdIsna,
      hv]
  · simp [applyTaggingConditions, tagConditions, npSelect_cons, npSelect_nil,
      pdGeZero, pdEqVal, pdGtPrior, pdLtPrior, pdPosPrior, pdNegPrior, pdIsna,
      hcn, hv]
  · simp [applyTaggingConditions, tagConditions, npSelect_cons, npSelect_nil,
      pdGeZero, pdEqVal, pdGtPrior, pdLtPrior, pdPosPrior, pdNegPrior, pdIsna,
      hv, asymm hv, hv.le]
  · simp [applyTaggingConditions, tagConditions, npSelect_cons, npSelect_nil,
      pdGeZero, pdEqVal, pdGtPrior, pdLtPrior, pdPosPrior, pdNegPrior, pdIsna,
      hcn, hv, asymm hv, hv.le]

/-- Witness for the amended C2 at concrete inputs. -/
theorem null_prior_ordering_false_witness :
    ((false && (strLower "" == "credit notes")) = false) ∧
    applyTaggingConditions false "" 1 none = "New" :=
  ⟨by decide, (null_prior_ordering_false false "" 1 (by decide)).2.2.1 (by norm_num)⟩

/-- Pandas cast of a string column entry to boolean (the `fill_bool` step of
a logical operator on a boolean and an object column): truthiness, i.e. a
nonempty string is `true`. -/
def pdStrAsBool (s : String) : Bool := !(s == "")

/-- Pandas elementwise `==` between a boolean column entry and a string
scalar: a boolean is never equal to a string, so the comparison yields
`false` for every entry. -/
def pdBoolEqString (_ : Bool) (_ : String) : Bool := false

/-- Condition/choice table of `_tag_final_cust_prod_status` (`app.py` lines
161–188), in source order.  In the last two conditions the source text
`(cust == 'credit notes') & prod == 'new'` parses, by Python operator
precedence, as `((cust == 'credit notes') & prod) == 'new'`: pandas casts
the string column to booleans for `&`, and the resulting boolean column
compared with a string scalar is elementwise false. -/
def reconcileConditions (cust prod : String) : List (Bool × String) :=
  [ ((strLower prod == "credit notes"), "Credit Notes"),
    ((strLower cust == "new"), "New"),
    ((strLower cust == "reactivated"), "Reactivated"),
    ((strLower cust == "deactivated"), "Deactivated"),
    ((strLower cust == "lost"), "Lost"),
    ((["recurring", "upsell", "downsell"].contains (strLower cust) &&
      (strLower prod == "new")), "xSell"),
    ((["recurring", "upsell", "downsell"].contains (strLower cust) &&
      (strLower prod == "lost")), "xLoss"),
    ((strLower prod == "upsell"), "Upsell"),
    ((strLower prod == "downsell"), "Downsell"),
    ((strLower prod == "recurring"), "Recurring"),
    ((pdBoolEqString ((strLower cust == "credit notes") &&
      pdStrAsBool (strLower prod)) "new"), "xSell"),
    ((pdBoolEqString ((strLower cust == "credit notes") &&
      pdStrAsBool (strLower prod)) "lost"), "xLoss") ]

/-- Per-record form of `_tag_final_cust_prod_status`: `np.select(conditions,
choices, default='N/A')` (`app.py` line 191) on the customer-level label
and the product-level label. -/
def tagFinalCustProdStatus (cust prod : String) : String :=
  npSelect (reconcileConditions cust prod) "N/A"

theorem selectedIdx_cons (c : Bool × String) (cs : List (Bool × String)) :
    selectedIdx (c :: cs) =
      if c.1 then some 0 else (selectedIdx cs).map (· + 1) := rfl

/-- When `np.select` picks branch `i`, condition `i` is true. -/
theorem selectedIdx_true (conds : List (Bool × String)) (i : ℕ)
    (h : selectedIdx conds = some i) :
    ∃ hi : i < conds.length, (conds.get ⟨i, hi⟩).1 = true := by
  induction conds generalizing i with
  | nil => simp [selectedIdx] at h
  | cons c cs ih =>
    rw [selectedIdx_cons] at h
    cases hb : c.1 with
    | true =>
      rw [hb, if_pos rfl] at h
      injection h with h
      subst h
      exact ⟨Nat.succ_pos _, hb⟩
    | false =>
      rw [hb] at h
      simp only [Bool.false_eq_true, if_false, Option.map_eq_some'] at h
      obtain ⟨j, hj, rfl⟩ := h
      obtain ⟨hjlen, hjget⟩ := ih j hj
      exact ⟨Nat.succ_lt_succ hjlen, hjget⟩

/-- C3: the credit-note override — whenever the product-level label is
`Credit Notes`, the reconciled final label is `Credit Notes`, whatever the
customer-level label is (the override is the first branch of the table). -/
theorem creditnote_override (cust prod : String)
    (h : strLower prod = "credit notes") :
    tagFinalCustProdStatus cust prod = "Credit Notes" := by
  simp [tagFinalCustProdStatus, reconcileConditions, npSelect_cons, h]

/-- Witness for C3 at a concrete record. -/
theorem creditnote_override_witness :
    tagFinalCustProdStatus "Upsell" "Credit Notes" = "Credit Notes" :=
  creditnote_override "Upsell" "Credit Notes" (by decide)

/-- C4: for an existing customer (customer-level label `Recurring`,
`Upsell` or `Downsell`), a product-level `New` reconciles to `xSell` and a
product-level `Lost` reconciles to `xLoss` — the cross-sell/cross-loss
branches, not the product-level pass-through branches. -/
theorem cross_sell_loss_precedence (cust prod : String)
    (hc : strLower cust = "recurring" ∨ strLower cust = "upsell" ∨
      strLower cust = "downsell") :
    (strLower prod = "new" → tagFinalCustProdStatus cust prod = "xSell") ∧
    (strLower prod = "lost" → tagFinalCustProdStatus cust prod = "xLoss") := by
  constructor <;> intro hp <;> rcases hc with h | h | h <;>
    simp only [tagFinalCustProdStatus, reconcileConditions, h, hp] <;> decide

/-- Witness for C4 at a concrete record. -/
theorem cross_sell_loss_precedence_witness :
    tagFinalCustProdStatus "Recurring" "New" = "xSell" :=
  (cross_sell_loss_precedence "Recurring" "New" (Or.inl (by decide))).1 (by decide)

/-- C5 counterexample: on a record with customer-level label `Credit Notes`
and product-level label `New` — exactly the row rule 11 describes — rule 1's
guard (product-level label is `Credit Notes`) is false, and the final label
is the default `N/A`, so rule 1 does not take precedence over (catch) the
rows of rule 11. -/
theorem rule11_not_caught_by_rule1 :
    tagFinalCustProdStatus "Credit Notes" "New" = "N/A" ∧
    (strLower "New" == "credit notes") = false := by
  constructor <;> decide

/-- C5 (amended): reconciliation branch 11 is dead — never the selected
branch — but not because rule 1 catches its rows: the source's condition for
branches 11 and 12 is, by operator precedence, a boolean column compared
with a string, which is identically false; a record with customer-level
`Credit Notes` and product-level `New` matches no branch and receives the
default `N/A`. -/
theorem rule11_branch_dead (cust prod : String) :
    selectedIdx (reconcileConditions cust prod) ≠ some 10 ∧
    (strLower cust = "credit notes" → strLower prod = "new" →
      tagFinalCustProdStatus cust prod = "N/A") := by
  constructor
  · intro h
    obtain ⟨hi, hget⟩ := selectedIdx_true _ _ h
    simp [reconcileConditions, pdBoolEqString, List.get] at hget
  · intro h1 h2
    simp only [tagFinalCustProdStatus, reconcileConditions, h1, h2]
    decide

/-- Witness for the amended C5 at a concrete record. -/
theorem rule11_branch_dead_witness :
    selectedIdx (reconcileConditions "Credit Notes" "New") ≠ some 10 ∧
    tagFinalCustProdStatus "Credit Notes" "New" = "N/A" :=
  ⟨(rule11_branch_dead "Credit Notes" "New").1,
    (rule11_branch_dead "Credit Notes" "New").2 (by decide) (by decide)⟩

/-- The result of `np.select` is the default or one of the choices. -/
theorem npSelect_mem (conds : List (Bool × String)) (d : String) :
    npSelect conds d = d ∨ npSelect conds d ∈ conds.map Prod.snd := by
  induction conds with
  | nil => exact Or.inl rfl
  | cons c cs ih =>
    obtain ⟨b, s⟩ := c
    rw [npSelect_cons]
    cases b
    · rw [if_neg (by simp)]
      rcases ih with h | h
      · exact Or.inl h
      · exact Or.inr (List.mem_cons_of_mem _ h)
    · exact Or.inr (by simp)

/-- When no condition is true, `np.select` yields the default. -/
theorem npSelect_default (conds : List (Bool × String)) (d : String)
    (h : ∀ c ∈ conds, c.1 = false) : npSelect conds d = d := by
  unfold npSelect
  rw [List.find?_eq_none.mpr]
  intro c hc
  simp [h c hc]

/-- Every label the classifier can emit. -/
theorem classifier_label_range (hasProduct : Bool) (product : String)
    (v : ℚ) (p : Option ℚ) :
    applyTaggingConditions hasProduct product v p ∈
      ["New", "Recurring", "Upsell", "Downsell", "Lost", "Credit Notes", "N/A"] := by
  have h := npSelect_mem (tagConditions hasProduct product v p) "N/A"
  rw [applyTaggingConditions]
  revert h
  generalize npSelect (tagConditions hasProduct product v p) "N/A" = x
  intro h
  cases hasProduct <;> simp [tagConditions] at h <;> simp <;> tauto

/-- Every label the reconciler can emit. -/
theorem reconciler_label_range (cust prod : String) :
    tagFinalCustProdStatus cust prod ∈
      ["Credit Notes", "New", "Reactivated", "Deactivated", "Lost", "xSell",
        "xLoss", "Upsell", "Downsell", "Recurring", "N/A"] := by
  have h := npSelect_mem (reconcileConditions cust prod) "N/A"
  rw [tagFinalCustProdStatus]
  revert h
  generalize npSelect (reconcileConditions cust prod) "N/A" = x
  intro h
  simp [reconcileConditions] at h
  simp
  tauto

/-- C7: every input row receives exactly one label at each level — the
classifier and the reconciler are total functions into their fixed label
sets; a row matching no rule raises nothing and is labelled with the default
`N/A`; and the produced status column has one entry per input row (no record
is dropped). -/
theorem single_label_per_row (hasProduct : Bool) (product : String) (v : ℚ)
    (p : Option ℚ) (cust prodLabel : String)
    (rows : List (String × ℚ × Option ℚ)) :
    applyTaggingConditions hasProduct product v p ∈
      ["New", "Recurring", "Upsell", "Downsell", "Lost", "Credit Notes", "N/A"] ∧
    tagFinalCustProdStatus cust prodLabel ∈
      ["Credit Notes", "New", "Reactivated", "Deactivated", "Lost", "xSell",
        "xLoss", "Upsell", "Downsell", "Recurring", "N/A"] ∧
    ((∀ c ∈ tagConditions hasProduct product v p, c.1 = false) →
      applyTaggingConditions hasProduct product v p = "N/A") ∧
    ((∀ c ∈ reconcileConditions cust prodLabel, c.1 = false) →
      tagFinalCustProdStatus cust prodLabel = "N/A") ∧
    (applyTaggingColumn hasProduct rows).length = rows.length :=
  ⟨classifier_label_range hasProduct product v p,
    reconciler_label_range cust prodLabel,
    fun h => npSelect_default _ _ h,
    fun h => npSelect_default _ _ h,
    List.length_map _ _⟩

/-- Witness for C7: a concrete unmatched row (zero value, null prior, no
product column) is kept and labelled `N/A`; a concrete two-row column keeps
both records. -/
theorem single_label_per_row_witness :
    applyTaggingConditions false "" 0 none ∈
      ["New", "Recurring", "Upsell", "Downsell", "Lost", "Credit Notes", "N/A"] ∧
    applyTaggingConditions false "" 0 none = "N/A" ∧
    tagFinalCustProdStatus "foo" "bar" = "N/A" ∧
    (applyTaggingColumn false [("", 0, none), ("", 3, some 1)]).length = 2 := by
  refine ⟨(single_label_per_row false "" 0 none "foo" "bar"
      [("", 0, none), ("", 3, some 1)]).1, ?_, ?_, ?_⟩
  · exact (single_label_per_row false "" 0 none "foo" "bar" []).2.2.1 (by decide)
  · exact (single_label_per_row false "" 0 none "foo" "bar" []).2.2.2.1 (by decide)
  · exact (single_label_per_row false "" 0 none "foo" "bar"
      [("", 0, none), ("", 3, some 1)]).2.2.2.2

/-- C9: the classifier never emits `Reactivated` or `Deactivated` — its
output lies in the seven-label set — so the reconciler's `Reactivated` and
`Deactivated` branches (indices 2 and 3 of the table) are never the
selected branch when the customer-level label comes from the classifier. -/
theorem no_reactivated_deactivated (hasProduct : Bool) (product : String)
    (v : ℚ) (p : Option ℚ) (prodLabel : String) :
    applyTaggingConditions hasProduct product v p ≠ "Reactivated" ∧
    applyTaggingConditions hasProduct product v p ≠ "Deactivated" ∧
    applyTaggingConditions hasProduct product v p ∈
      ["New", "Recurring", "Upsell", "Downsell", "Lost", "Credit Notes", "N/A"] ∧
    selectedIdx (reconcileConditions
      (applyTaggingConditions hasProduct product v p) prodLabel) ≠ some 2 ∧
    selectedIdx (reconcileConditions
      (applyTaggingConditions hasProduct product v p) prodLabel) ≠ some 3 := by
  have hrange := classifier_label_range hasProduct product v p
  simp only [List.mem_cons, List.not_mem_nil, or_false] at hrange
  have hne2 : ∀ i : ℕ, i = 2 ∨ i = 3 →
      selectedIdx (reconcileConditions
        (applyTaggingConditions hasProduct product v p) prodLabel) ≠ some i := by
    intro i hi h
    obtain ⟨hlen, hget⟩ := selectedIdx_true _ _ h
    rcases hi with rfl | rfl <;>
      rcases hrange with h | h | h | h | h | h | h <;>
      rw [h] at hget <;>
      simp [reconcileConditions, List.get, strLower] at hget
  refine ⟨?_, ?_, classifier_label_range hasProduct product v p,
    hne2 2 (Or.inl rfl), hne2 3 (Or.inr rfl)⟩ <;>
    rcases hrange with h | h | h | h | h | h | h <;> simp [h]

/-- Witness for C9 at a concrete record. -/
theorem no_reactivated_deactivated_witness :
    applyTaggingConditions false "" 3 none ≠ "Reactivated" :=
  (no_reactivated_deactivated false "" 3 none "New").1

/-- One row of a period-aggregated dataset at some grain: the grain key
(`customer`, or the pair `(customer, product)`), the year, and the summed
value. -/
structure PeriodRow (κ : Type) where
  key : κ
  year : ℤ
  value : ℚ

/-- Strict lexicographic order on (key columns, year): consecutive rows of
the output of `groupby(key columns + ['year']).sum()` followed by
`sort_values(by=key columns + ['year'])` are related by it (the groupby
output has at most one row per (key, year)). -/
def lexLt {κ : Type} [LT κ] (a b : PeriodRow κ) : Prop :=
  a.key < b.key ∨ (a.key = b.key ∧ a.year < b.year)

instance {κ : Type} [LinearOrder κ] : DecidableRel (@lexLt κ _) := fun a b =>
  inferInstanceAs
    (Decidable (a.key < b.key ∨ (a.key = b.key ∧ a.year < b.year)))

/-- The prior-period column
`value.shift(1).where(key == key.shift(1), None)` built in
`_tag_customer_status` (`app.py` line 219 for the customer grain and lines
235–239 for the customer/product grain): each row is paired with the row
immediately above (none above the first row) and receives that row's value
when it carries identical key columns, else null. -/
def shiftWhere {κ : Type} [DecidableEq κ] (l : List (PeriodRow κ)) :
    List (Option ℚ) :=
  (l.zip (none :: l.map some)).map fun rp =>
    match rp.2 with
    | some prev => if prev.key = rp.1.key then some prev.value else none
    | none => none

theorem shiftWhere_length {κ : Type} [DecidableEq κ]
    (l : List (PeriodRow κ)) : (shiftWhere l).length = l.length := by
  simp [shiftWhere]

theorem shiftWhere_get_zero {κ : Type} [DecidableEq κ]
    (l : List (PeriodRow κ)) (h : 0 < (shiftWhere l).length) :
    (shiftWhere l).get ⟨0, h⟩ = none := by
  have hl : 0 < l.length := by rwa [shiftWhere_length] at h
  cases l with
  | nil => exact absurd hl (by simp)
  | cons a l => rfl

theorem shiftWhere_get_succ {κ : Type} [DecidableEq κ]
    (l : List (PeriodRow κ)) (i : ℕ) (h : i + 1 < (shiftWhere l).length)
    (h1 : i + 1 < l.length) (h0 : i < l.length) :
    (shiftWhere l).get ⟨i + 1, h⟩ =
      if (l.get ⟨i, h0⟩).key = (l.get ⟨i + 1, h1⟩).key
      then some ((l.get ⟨i, h0⟩).value) else none := by
  simp [shiftWhere, List.get_eq_getElem, List.getElem_zip]

/-- C6: on a period-aggregated dataset sorted strictly by (key columns,
year) — the shape `groupby(...).sum()` + `sort_values` produces at either
grain — the resolved `prior_yr_value` of a row is null exactly when the row
is the first observed period for its key, and when it is non-null it equals
the value of the nearest preceding observed period for the same key (gaps
tolerated: a key observed in 2018 and 2020 but not 2019 compares 2020
against 2018). -/
theorem prior_period_resolver {κ : Type} [LinearOrder κ]
    (l : List (PeriodRow κ)) (hs : l.Pairwise lexLt) (iv : ℕ)
    (hilt : iv < l.length) (hi : iv < (shiftWhere l).length) :
    ((shiftWhere l).get ⟨iv, hi⟩ = none ↔
      ∀ j : Fin l.length, (l.get j).key = (l.get ⟨iv, hilt⟩).key →
        (l.get ⟨iv, hilt⟩).year ≤ (l.get j).year) ∧
    ∀ v : ℚ, (shiftWhere l).get ⟨iv, hi⟩ = some v →
      ∃ j : Fin l.length, (l.get j).key = (l.get ⟨iv, hilt⟩).key ∧
        (l.get j).year < (l.get ⟨iv, hilt⟩).year ∧ (l.get j).value = v ∧
        ∀ k : Fin l.length, (l.get k).key = (l.get ⟨iv, hilt⟩).key →
          (l.get k).year < (l.get ⟨iv, hilt⟩).year →
          (l.get k).year ≤ (l.get j).year := by
  have hp := List.pairwise_iff_get.mp hs
  cases iv with
  | zero =>
    rw [shiftWhere_get_zero l hi]
    refine ⟨iff_of_true rfl fun j hkey => ?_, fun v hv => Option.noConfusion hv⟩
    rcases Nat.eq_zero_or_pos j.1 with hj | hj
    · rw [show j = ⟨0, hilt⟩ from Fin.ext hj]
    · rcases hp ⟨0, hilt⟩ j (show (0 : ℕ) < j.1 from hj) with h | h
      · exact absurd (hkey ▸ h) (lt_irrefl _)
      · exact le_of_lt h.2
  | succ n =>
    have h0 : n < l.length := Nat.lt_of_succ_lt hilt
    rw [shiftWhere_get_succ l n hi hilt h0]
    by_cases hkeq : (l.get ⟨n, h0⟩).key = (l.get ⟨n + 1, hilt⟩).key
    · rw [if_pos hkeq]
      have hyear : (l.get ⟨n, h0⟩).year < (l.get ⟨n + 1, hilt⟩).year := by
        rcases hp ⟨n, h0⟩ ⟨n + 1, hilt⟩ (Nat.lt_succ_self n) with h | h
        · rw [hkeq] at h; exact absurd h (lt_irrefl _)
        · exact h.2
      constructor
      · refine iff_of_false (by simp) fun hall => ?_
        exact absurd (hall ⟨n, h0⟩ hkeq) (not_le.mpr hyear)
      · intro v hv
        injection hv with hv
        refine ⟨⟨n, h0⟩, hkeq, hyear, hv, fun k hk hky => ?_⟩
        rcases lt_trichotomy k.1 n with hlt | heqn | hgt
        · rcases hp k ⟨n, h0⟩ (show k.1 < n from hlt) with h | h
          · rw [hk, ← hkeq] at h
            exact absurd h (lt_irrefl _)
          · exact le_of_lt h.2
        · exact le_of_eq (congrArg (fun m => (l.get m).year) (Fin.ext heqn))
        · exfalso
          rcases Nat.lt_or_ge k.1 (n + 1 + 1) with hk2 | hk2
          · have hke : k = ⟨n + 1, hilt⟩ := Fin.ext (show k.1 = n + 1 by omega)
            rw [hke] at hky
            exact absurd hky (lt_irrefl _)
          · rcases hp ⟨n + 1, hilt⟩ k (show n + 1 < k.1 by omega) with h | h
            · rw [hk] at h
              exact absurd h (lt_irrefl _)
            · exact absurd (h.2.trans hky) (lt_irrefl _)
    · rw [if_neg hkeq]
      refine ⟨iff_of_true rfl fun j hkey => ?_, fun v hv => Option.noConfusion hv⟩
      have hkn : (l.get ⟨n, h0⟩).key < (l.get ⟨n + 1, hilt⟩).key := by
        rcases hp ⟨n, h0⟩ ⟨n + 1, hilt⟩ (Nat.lt_succ_self n) with h | h
        · exact h
        · exact absurd h.1 hkeq
      rcases lt_trichotomy j.1 (n + 1) with hlt | heqn | hgt
      · exfalso
        rcases Nat.lt_or_ge j.1 n with hjn | hjn
        · rcases hp j ⟨n, h0⟩ (show j.1 < n from hjn) with h | h
          · rw [hkey] at h
            exact absurd (h.trans hkn) (lt_irrefl _)
          · rw [h.1] at hkey
            exact absurd (hkey ▸ hkn) (lt_irrefl _)
        · have hje : j = ⟨n, h0⟩ := Fin.ext (show j.1 = n by omega)
          rw [hje] at hkey
          exact absurd (hkey ▸ hkn) (lt_irrefl _)
      · exact le_of_eq (congrArg (fun m => (l.get m).year) (Fin.ext heqn.symm))
      · rcases hp ⟨n + 1, hilt⟩ j (show n + 1 < j.1 from hgt) with h | h
        · rw [hkey] at h
          exact absurd h (lt_irrefl _)
        · exact le_of_lt h.2

/-- Left merge `data.merge(right[key + [label]], on=key, how='left')`
(`app.py` lines 225 and 244): every original fact row is kept; it is paired with the label
of each right-table row whose key matches, and with a null label when no
right-table row matches (never dropped, never an error). -/
def leftMerge {α κ β : Type} [DecidableEq κ] (keyOf : α → κ)
    (left : List α) (right : List (κ × β)) : List (α × Option β) :=
  left.flatMap fun f =>
    match right.filter (fun r => decide (r.1 = keyOf f)) with
    | [] => [(f, none)]
    | ms => ms.map fun r => (f, some r.2)

/-- In a label table with no duplicate keys, filtering by a key yields at
most the first match. -/
theorem filter_key_eq_find {κ β : Type} [DecidableEq κ]
    (right : List (κ × β)) (k : κ) (h : (right.map Prod.fst).Nodup) :
    right.filter (fun r => decide (r.1 = k)) =
      (right.find? (fun r => decide (r.1 = k))).toList := by
  induction right with
  | nil => rfl
  | cons r rs ih =>
    simp only [List.map_cons, List.nodup_cons] at h
    by_cases hr : r.1 = k
    · rw [List.filter_cons_of_pos (by simp [hr]),
        List.find?_cons_of_pos _ (by simp [hr])]
      have hnil : rs.filter (fun x => decide (x.1 = k)) = [] := by
        rw [List.filter_eq_nil_iff]
        intro a ha
        simp only [decide_eq_true_eq]
        intro hak
        exact h.1 (by simpa [hak, ← hr] using List.mem_map_of_mem Prod.fst ha)
      rw [hnil]
      rfl
    · rw [List.filter_cons_of_neg (by simp [hr]),
        List.find?_cons_of_neg _ (by simp [hr])]
      exact ih h.2

/-- With unique right-table keys, the left merge pairs each left row, in
order, with the label found for its key (null when absent). -/
theorem leftMerge_eq_map {α κ β : Type} [DecidableEq κ] (keyOf : α → κ)
    (left : List α) (right : List (κ × β))
    (h : (right.map Prod.fst).Nodup) :
    leftMerge keyOf left right =
      left.map fun f =>
        (f, (right.find? (fun r => decide (r.1 = keyOf f))).map Prod.snd) := by
  induction left with
  | nil => rfl
  | cons f fs ih =>
    rw [leftMerge, List.flatMap_cons, List.map_cons, ← leftMerge,
      filter_key_eq_find right (keyOf f) h, ih]
    cases right.find? (fun r => decide (r.1 = keyOf f)) <;> rfl

/-- The label a merged row carries is the one found for its key. -/
theorem leftMerge_snd {α κ β : Type} [DecidableEq κ] (keyOf : α → κ)
    (left : List α) (right : List (κ × β))
    (h : (right.map Prod.fst).Nodup) (pr : α × Option β)
    (hm : pr ∈ leftMerge keyOf left right) :
    pr.2 = (right.find? (fun r => decide (r.1 = keyOf pr.1))).map Prod.snd := by
  rw [leftMerge_eq_map keyOf left right h] at hm
  obtain ⟨f, _, rfl⟩ := List.mem_map.mp hm
  rfl

/-- C8: with unique keys in the aggregate label table (the groupby output
has one row per key), the left-merge join-back keeps every original fact
row with all its original column values, in order (so the row count is
unchanged), and a row whose key matches no aggregate receives a null label
instead of being dropped or raising. -/
theorem joinback_preserves_rows {α κ β : Type} [DecidableEq κ]
    (keyOf : α → κ) (left : List α) (right : List (κ × β))
    (h : (right.map Prod.fst).Nodup) :
    (leftMerge keyOf left right).map Prod.fst = left ∧
    (leftMerge keyOf left right).length = left.length ∧
    ∀ pr ∈ leftMerge keyOf left right,
      (∀ r ∈ right, r.1 ≠ keyOf pr.1) → pr.2 = none := by
  refine ⟨?_, ?_, ?_⟩
  · rw [leftMerge_eq_map keyOf left right h]
    simp [Function.comp_def]
  · rw [leftMerge_eq_map keyOf left right h, List.length_map]
  · intro pr hm hnone
    rw [leftMerge_snd keyOf left right h pr hm,
      List.find?_eq_none.mpr fun r hr => by simp [hnone r hr]]
    rfl

/-- Witness for C8 on a concrete fact table: two matched rows and one
unmatched row are all kept, original values first, the unmatched one with a
null label. -/
theorem joinback_preserves_rows_witness :
    (leftMerge (fun f : String × ℚ => f.1) [("a", 10), ("b", 20), ("c", 30)]
        [("a", "New"), ("b", "Lost")]).map Prod.fst =
      [("a", 10), ("b", 20), ("c", 30)] ∧
    (leftMerge (fun f : String × ℚ => f.1) [("a", 10), ("b", 20), ("c", 30)]
        [("a", "New"), ("b", "Lost")]).length = 3 := by
  have h := joinback_preserves_rows (fun f : String × ℚ => f.1)
    [("a", 10), ("b", 20), ("c", 30)] [("a", "New"), ("b", "Lost")]
    (by decide)
  exact ⟨h.1, h.2.1⟩

/-- Concrete rows at the customer grain exhibiting a period gap: customer 0
observed in 2018 and 2020 (not 2019), customer 1 first observed in 2020. -/
def gapRows : List (PeriodRow ℕ) :=
  [⟨0, 2018, 100⟩, ⟨0, 2020, 150⟩, ⟨1, 2020, 50⟩]

/-- Witness for C6: on `gapRows` the 2020 row of customer 0 receives the
2018 value 100 as its prior (nearest preceding observed period, across the
gap), and that prior is maximal among the preceding observed periods. -/
theorem prior_period_resolver_witness :
    gapRows.Pairwise lexLt ∧
    shiftWhere gapRows = [none, some 100, none] ∧
    ∃ j : Fin gapRows.length,
      (gapRows.get j).key = (gapRows.get ⟨1, by decide⟩).key ∧
      (gapRows.get j).year < (gapRows.get ⟨1, by decide⟩).year ∧
      (gapRows.get j).value = 100 ∧
      ∀ k : Fin gapRows.length,
        (gapRows.get k).key = (gapRows.get ⟨1, by decide⟩).key →
        (gapRows.get k).year < (gapRows.get ⟨1, by decide⟩).year →
        (gapRows.get k).year ≤ (gapRows.get j).year :=
  ⟨by decide, by decide,
    (prior_period_resolver gapRows (by decide) 1 (by decide) (by decide)).2
      100 (by decide)⟩

/-- One original fact row as it reaches the merge-back stage. -/
structure Fact where
  metric : String
  customer : String
  product : String
  year : ℤ
  value : ℚ
deriving DecidableEq

/-- The key of the customer-level merge in `_tag_customer_status`
(`app.py` line 225): `on=['customer', 'year']`. -/
def custYearKey (f : Fact) : String × ℤ := (f.customer, f.year)

/-- C10: after the customer-level label table (one row per (customer,
year), from the groupby) is left-merged back on `['customer', 'year']`,
any two fact rows with the same customer and year carry the same
`cust_status_annual` label: the merged label is a function of (customer,
year) alone, independent of the row's product or any other attribute. -/
theorem cust_status_determined_by_customer_year (facts : List Fact)
    (agg : List ((String × ℤ) × String))
    (h : (agg.map Prod.fst).Nodup) :
    ∀ p ∈ leftMerge custYearKey facts agg,
      ∀ q ∈ leftMerge custYearKey facts agg,
        p.1.customer = q.1.customer → p.1.year = q.1.year → p.2 = q.2 := by
  intro p hp q hq hc hy
  rw [leftMerge_snd custYearKey facts agg h p hp,
    leftMerge_snd custYearKey facts agg h q hq]
  have hkey : custYearKey p.1 = custYearKey q.1 := by
    unfold custYearKey
    rw [hc, hy]
  rw [hkey]

/-- Concrete fact table: one customer, one year, two different products. -/
def factsEx : List Fact :=
  [⟨"ARR", "c1", "p1", 2020, 10⟩, ⟨"ARR", "c1", "p2", 2020, 20⟩]

/-- Concrete customer-level label table keyed by (customer, year). -/
def aggEx : List ((String × ℤ) × String) := [(("c1", 2020), "Upsell")]

/-- Witness for C10: the two fact rows of `factsEx`, which differ in
product, carry the same merged customer-level label. -/
theorem cust_status_determined_witness :
    ((⟨"ARR", "c1", "p1", 2020, 10⟩ : Fact), (some "Upsell" : Option String)).2 =
      ((⟨"ARR", "c1", "p2", 2020, 20⟩ : Fact), (some "Upsell" : Option String)).2 :=
  cust_status_determined_by_customer_year factsEx aggEx (by decide)
    (⟨"ARR", "c1", "p1", 2020, 10⟩, some "Upsell") (by decide)
    (⟨"ARR", "c1", "p2", 2020, 20⟩, some "Upsell") (by decide) rfl rfl

end PriceVol
